import Mathlib

/-!
A verification development for the cooperative loop runner in
src/not_a_timer/not_a_timer.cpp.

The class not_a_timer holds an optional future _running_fn (modelled here by
a presence flag), an atomic _keep_running flag (default-initialised to true),
and an atomic _is_running flag (default-initialised to false).  The blocking
member run(fn) sets _keep_running and _is_running to true, installs a janitor
that clears _is_running on every exit path (including exceptional ones), and
executes the loop: while (_keep_running and fn()).  stop() sets _keep_running
to false; is_running() returns _is_running; the destructor waits on the
future when one is present.

Two embeddings are used, both translated from the source:

1. A sequential fuelled interpreter for the blocking run.  A step function is
   a state transformer returning (Option Bool, new state); the Option is none
   when the invocation raises.  The interpreter counts invocations and records
   whether the caller-supplied function raised; fuel exhaustion yields none
   (the loop did not terminate within the fuel) and never counts as a return.

2. An interleaving small-step machine for run_async, stop, is_running and
   destruction, with one caller thread and one background worker.  The worker
   executes the body of the async task from run_async: first the handshake
   notification (guarded by the mutex, which the caller holds until its
   condition-variable wait releases it), then run: set _keep_running, set
   _is_running, then the loop, then the janitor.  The caller launches, waits
   for the notification, may call stop any number of times after run_async
   returned, and finally destroys the object; destruction completes only when
   the future, if present, is ready (the destructor waits on it).  A ghost
   field stop_called records whether stop was ever invoked, and fnCalls counts
   step-function invocations.
-/

structure not_a_timer where
  _running_fn : Bool := false
  _keep_running : Bool := true
  _is_running : Bool := false
deriving DecidableEq

/-- Embeds not_a_timer::stop: sets _keep_running to false. -/
def not_a_timer.stop (t : not_a_timer) : not_a_timer :=
  { t with _keep_running := false }

/-- Embeds not_a_timer::is_running: returns _is_running. -/
def not_a_timer.is_running (t : not_a_timer) : Bool :=
  t._is_running

/-- n successive calls to stop on the same object. -/
def stopN : Nat → not_a_timer → not_a_timer
  | 0, t => t
  | n + 1, t => not_a_timer.stop (stopN n t)

/-- Outcome of a terminating blocking run: final object state, final state of
the data captured by the step function, number of invocations of the step
function, and whether the run exited by propagating a raise. -/
structure RunOut (σ : Type) where
  timer : not_a_timer
  st : σ
  calls : Nat
  threw : Bool
deriving DecidableEq

/-- Embeds the loop of not_a_timer::run: while (_keep_running and fn()).
A step function f maps the captured state to (Option Bool, new state); none
models the invocation raising.  On every exit path, normal or raising, the
janitor clears _is_running.  Fuel bounds the number of iterations; none means
the loop did not terminate within the fuel. -/
def runLoop {σ : Type} (f : σ → Option Bool × σ) :
    Nat → not_a_timer → σ → Nat → Option (RunOut σ)
  | 0, _, _, _ => none
  | fuel + 1, t, s, n =>
    if t._keep_running then
      match f s with
      | (none, s2) => some ⟨{ t with _is_running := false }, s2, n + 1, true⟩
      | (some true, s2) => runLoop f fuel t s2 (n + 1)
      | (some false, s2) => some ⟨{ t with _is_running := false }, s2, n + 1, false⟩
    else
      some ⟨{ t with _is_running := false }, s, n, false⟩

/-- Embeds not_a_timer::run: set _keep_running and _is_running to true, then
execute the janitor-guarded loop. -/
def not_a_timer.run {σ : Type} (t : not_a_timer) (f : σ → Option Bool × σ)
    (fuel : Nat) (s : σ) : Option (RunOut σ) :=
  runLoop f fuel { t with _keep_running := true, _is_running := true } s 0

/-- State of the captured data before the k-th invocation of the step
function, when the loop never exits early. -/
def stAt {σ : Type} (f : σ → Option Bool × σ) (s : σ) : Nat → σ
  | 0 => s
  | k + 1 => (f (stAt f s k)).2

/-- Result of the k-th invocation of the step function (0-indexed). -/
def outAt {σ : Type} (f : σ → Option Bool × σ) (s : σ) (k : Nat) : Option Bool :=
  (f (stAt f s k)).1

/-- Modulus of the 64-bit size_t used by the test step functions. -/
def size_t_mod : Nat := 2 ^ 64

/-- The step function of the tests, over the sequential interpreter:
a size_t counter c with body (return --count > 0), i.e. decrement modulo
2 to the 64 and report whether the decremented value is positive. -/
def counterStep (c : Nat) : Option Bool × Nat :=
  (some (decide (0 < (c + (size_t_mod - 1)) % size_t_mod)),
    (c + (size_t_mod - 1)) % size_t_mod)

/-- The same counter step function as a total function, for the machine. -/
def counterStepT (c : Nat) : Bool × Nat :=
  (decide (0 < (c + (size_t_mod - 1)) % size_t_mod),
    (c + (size_t_mod - 1)) % size_t_mod)

/-- A step function whose very first invocation raises. -/
def throwStep (s : Unit) : Option Bool × Unit :=
  (none, s)

/-- Program counter of the background worker launched by run_async.  The
async task body first performs the handshake notification and then calls run,
whose statements are: set _keep_running, set _is_running, loop head (test
_keep_running), invoke the step function, and the janitor clearing
_is_running. -/
inductive WorkerPc
  | notStarted
  | notify
  | setKeep
  | setRun
  | loopHead
  | callFn
  | janitor
  | done
deriving DecidableEq

/-- Program counter of the caller thread: before run_async has launched the
task, waiting on the start handshake, after run_async returned, inside the
destructor waiting on the future, destroyed. -/
inductive MainPc
  | start
  | waitCV
  | afterAsync
  | dtorWait
  | destroyed
deriving DecidableEq

/-- Configuration of the two-thread machine: the object state, both program
counters, whether the handshake notification has fired, a ghost flag
recording whether stop was ever called, the number of step-function
invocations so far, and the state captured by the step function. -/
structure SysConfig (σ : Type) where
  timer : not_a_timer
  main : MainPc
  worker : WorkerPc
  notified : Bool
  stop_called : Bool
  fnCalls : Nat
  st : σ
deriving DecidableEq

/-- Effect of a stop() call on a machine configuration: not_a_timer::stop on
the object plus the ghost record that stop was called. -/
def stopC {σ : Type} (c : SysConfig σ) : SysConfig σ :=
  { c with timer := not_a_timer.stop c.timer, stop_called := true }

/-- Initial configuration: a freshly constructed not_a_timer (no future,
_keep_running true, _is_running false), caller about to call run_async,
worker not yet launched. -/
def sysInit {σ : Type} (s : σ) : SysConfig σ :=
  { timer := {}
    main := MainPc.start
    worker := WorkerPc.notStarted
    notified := false
    stop_called := false
    fnCalls := 0
    st := s }

/-- Interleaving small-step relation of the machine, for a total step
function f.  Worker transitions follow the async task body of run_async and
the statements of run; caller transitions follow run_async (launch, then a
condition-variable wait that completes once the notification fired), stop,
and the destructor (which completes only when the future, if present, is
ready). -/
inductive SysStep {σ : Type} (f : σ → Bool × σ) :
    SysConfig σ → SysConfig σ → Prop
  | launch (c : SysConfig σ) :
      c.main = MainPc.start → c.worker = WorkerPc.notStarted →
      SysStep f c { c with
        main := MainPc.waitCV
        worker := WorkerPc.notify
        timer := { c.timer with _running_fn := true } }
  | notifyStarted (c : SysConfig σ) :
      c.worker = WorkerPc.notify →
      SysStep f c { c with worker := WorkerPc.setKeep, notified := true }
  | setKeepRunning (c : SysConfig σ) :
      c.worker = WorkerPc.setKeep →
      SysStep f c { c with
        worker := WorkerPc.setRun
        timer := { c.timer with _keep_running := true } }
  | setIsRunning (c : SysConfig σ) :
      c.worker = WorkerPc.setRun →
      SysStep f c { c with
        worker := WorkerPc.loopHead
        timer := { c.timer with _is_running := true } }
  | loopCheckTrue (c : SysConfig σ) :
      c.worker = WorkerPc.loopHead → c.timer._keep_running = true →
      SysStep f c { c with worker := WorkerPc.callFn }
  | loopCheckFalse (c : SysConfig σ) :
      c.worker = WorkerPc.loopHead → c.timer._keep_running = false →
      SysStep f c { c with worker := WorkerPc.janitor }
  | callTrue (c : SysConfig σ) (s2 : σ) :
      c.worker = WorkerPc.callFn → f c.st = (true, s2) →
      SysStep f c { c with
        worker := WorkerPc.loopHead
        st := s2
        fnCalls := c.fnCalls + 1 }
  | callFalse (c : SysConfig σ) (s2 : σ) :
      c.worker = WorkerPc.callFn → f c.st = (false, s2) →
      SysStep f c { c with
        worker := WorkerPc.janitor
        st := s2
        fnCalls := c.fnCalls + 1 }
  | janitorClear (c : SysConfig σ) :
      c.worker = WorkerPc.janitor →
      SysStep f c { c with
        worker := WorkerPc.done
        timer := { c.timer with _is_running := false } }
  | wake (c : SysConfig σ) :
      c.main = MainPc.waitCV → c.notified = true →
      SysStep f c { c with main := MainPc.afterAsync }
  | stopCall (c : SysConfig σ) :
      c.main = MainPc.afterAsync →
      SysStep f c (stopC c)
  | dtorEnter (c : SysConfig σ) :
      c.main = MainPc.afterAsync →
      SysStep f c { c with main := MainPc.dtorWait }
  | dtorDone (c : SysConfig σ) :
      c.main = MainPc.dtorWait →
      (c.timer._running_fn = false ∨ c.worker = WorkerPc.done) →
      SysStep f c { c with main := MainPc.destroyed }

/-- Worker locations at which the loop is executing: from the write of
_is_running at loop entry up to, but not including, the janitor write that
clears it. -/
def runningRegion : WorkerPc → Bool
  | WorkerPc.loopHead => true
  | WorkerPc.callFn => true
  | WorkerPc.janitor => true
  | _ => false

/-- Worker locations past the write of _keep_running at the entry of run. -/
def postKeepRegion : WorkerPc → Bool
  | WorkerPc.loopHead => true
  | WorkerPc.callFn => true
  | WorkerPc.janitor => true
  | WorkerPc.done => true
  | _ => false

/-- Worker locations at which the handshake notification has been executed
(the async task has begun running). -/
def handshakeDone : WorkerPc → Bool
  | WorkerPc.notStarted => false
  | WorkerPc.notify => false
  | _ => true

/-- Caller locations at or past the return of run_async. -/
def mainPast : MainPc → Bool
  | MainPc.afterAsync => true
  | MainPc.dtorWait => true
  | MainPc.destroyed => true
  | _ => false

/-- One pending step-function invocation may still complete when the worker
sits between the loop-head check and the call. -/
def stopBudget {σ : Type} (c : SysConfig σ) : Nat :=
  if c.worker = WorkerPc.callFn then 1 else 0

/-- Machine configuration reached right after run_async returns when the
caller is scheduled immediately after the handshake notification: the worker
has notified but not yet executed the body of run. -/
def cexCfg : SysConfig Nat :=
  ⟨⟨true, true, false⟩, MainPc.afterAsync, WorkerPc.setKeep, true, false, 0, 100⟩

/-- Final configuration of a complete run of the machine on the counter step
function started at 1: loop finished naturally, object destroyed. -/
def joinEnd : SysConfig Nat :=
  ⟨⟨true, true, false⟩, MainPc.destroyed, WorkerPc.done, true, false, 1, 0⟩

/-- A configuration in which stop has been observed-able: the worker sits at
the loop head and _keep_running is already false. -/
def stopObsStart : SysConfig Nat :=
  ⟨⟨true, false, true⟩, MainPc.afterAsync, WorkerPc.loopHead, true, true, 7, 5⟩

/-- The configuration reached from stopObsStart after the loop-head check
observes the stop and the janitor runs. -/
def stopObsEnd : SysConfig Nat :=
  ⟨⟨true, false, false⟩, MainPc.afterAsync, WorkerPc.done, true, true, 7, 5⟩

/-- Shifting the invocation script by one step. -/
lemma stAt_shift {σ : Type} (f : σ → Option Bool × σ) (s : σ) (k : Nat) :
    stAt f s (k + 1) = stAt f (f s).2 k := by
  induction k with
  | zero => rfl
  | succ k ih =>
    show (f (stAt f s (k + 1))).2 = stAt f (f s).2 (k + 1)
    rw [ih]
    rfl

/-- Shifting the outputs of the invocation script by one step. -/
lemma outAt_shift {σ : Type} (f : σ → Option Bool × σ) (s : σ) (k : Nat) :
    outAt f s (k + 1) = outAt f (f s).2 k := by
  simp [outAt, stAt_shift]

/-- The loop of run, executed against a script whose first j invocations
return true and whose invocation number j returns false, performs exactly
j + 1 invocations and exits normally with the janitor having cleared
_is_running. -/
lemma runLoop_script {σ : Type} (f : σ → Option Bool × σ) :
    ∀ (j : Nat) (s : σ) (t : not_a_timer) (n fuel : Nat),
      t._keep_running = true →
      (∀ k, k < j → outAt f s k = some true) →
      outAt f s j = some false →
      j < fuel →
      runLoop f fuel t s n =
        some ⟨{ t with _is_running := false }, stAt f s (j + 1), n + (j + 1), false⟩ := by
  intro j
  induction j with
  | zero =>
    intro s t n fuel hkeep _ hfalse hfuel
    cases fuel with
    | zero => omega
    | succ m =>
      rcases hq : f s with ⟨ob, s2⟩
      have h0 : ob = some false := by
        have h1 : (f s).1 = some false := hfalse
        rw [hq] at h1
        exact h1
      subst h0
      simp [runLoop, hkeep, hq, stAt]
  | succ j ih =>
    intro s t n fuel hkeep htrue hfalse hfuel
    cases fuel with
    | zero => omega
    | succ m =>
      rcases hq : f s with ⟨ob, s2⟩
      have h0 : ob = some true := by
        have h1 : (f s).1 = some true := htrue 0 (Nat.succ_pos j)
        rw [hq] at h1
        exact h1
      subst h0
      have htrue2 : ∀ k, k < j → outAt f s2 k = some true := by
        intro k hk
        have h2 := htrue (k + 1) (by omega)
        rw [outAt_shift, hq] at h2
        exact h2
      have hfalse2 : outAt f s2 j = some false := by
        have h2 := hfalse
        rw [outAt_shift, hq] at h2
        exact h2
      have hrec := ih s2 t (n + 1) m hkeep htrue2 hfalse2 (by omega)
      have hst : stAt f s (j + 1 + 1) = stAt f s2 (j + 1) := by
        rw [stAt_shift, hq]
      have harith : n + 1 + (j + 1) = n + (j + 1 + 1) := by omega
      simp [runLoop, hkeep, hq, hrec, hst, harith]

/-- Any terminating run of the loop leaves _is_running cleared (the janitor
runs on every exit path, raising ones included). -/
lemma runLoop_clears {σ : Type} (f : σ → Option Bool × σ) :
    ∀ (fuel : Nat) (t : not_a_timer) (s : σ) (n : Nat) (out : RunOut σ),
      runLoop f fuel t s n = some out → out.timer._is_running = false := by
  intro fuel
  induction fuel with
  | zero =>
    intro t s n out h
    simp [runLoop] at h
  | succ m ih =>
    intro t s n out h
    rw [runLoop] at h
    rcases hq : f s with ⟨ob, s2⟩
    rw [hq] at h
    by_cases hk : t._keep_running
    · rw [if_pos hk] at h
      match ob, h with
      | none, h =>
        cases h
        rfl
      | some true, h => exact ih t s2 (n + 1) out h
      | some false, h =>
        cases h
        rfl
    · rw [if_neg hk] at h
      cases h
      rfl

/-- Any terminating run of the loop that starts with _keep_running true
performs at least one invocation of the step function. -/
lemma runLoop_calls_lower {σ : Type} (f : σ → Option Bool × σ) :
    ∀ (fuel : Nat) (t : not_a_timer) (s : σ) (n : Nat) (out : RunOut σ),
      t._keep_running = true → runLoop f fuel t s n = some out →
      n + 1 ≤ out.calls := by
  intro fuel
  induction fuel with
  | zero =>
    intro t s n out _ h
    simp [runLoop] at h
  | succ m ih =>
    intro t s n out hk h
    rw [runLoop, if_pos hk] at h
    rcases hq : f s with ⟨ob, s2⟩
    rw [hq] at h
    match ob, h with
    | none, h =>
      cases h
      exact Nat.le_refl _
    | some true, h =>
      have h2 := ih t s2 (n + 1) out hk h
      omega
    | some false, h =>
      cases h
      exact Nat.le_refl _

/-- Claim C2: for every N at least 1 and every step function that returns
true on its first N - 1 invocations and false on its N-th invocation, with no
concurrent stop, run invokes the step function exactly N times and then
returns, with the captured state reflecting all N invocations. -/
theorem run_exact_invocations {σ : Type} (f : σ → Option Bool × σ) (s : σ)
    (t : not_a_timer) (N fuel : Nat) (hN : 1 ≤ N)
    (htrue : ∀ k, k < N - 1 → outAt f s k = some true)
    (hfalse : outAt f s (N - 1) = some false) (hfuel : N ≤ fuel) :
    not_a_timer.run t f fuel s =
      some ⟨{ t with _keep_running := true, _is_running := false },
        stAt f s N, N, false⟩ := by
  have h := runLoop_script f (N - 1) s
    { t with _keep_running := true, _is_running := true } 0 fuel rfl htrue hfalse
    (by omega)
  have hN1 : N - 1 + 1 = N := by omega
  rw [hN1] at h
  simpa [not_a_timer.run] using h

/-- Witness for claim C2: a step function that decrements a counter starting
at 100 and returns counter greater than zero is invoked exactly 100 times by
run and leaves the counter equal to 0. -/
theorem run_exact_invocations_witness :
    not_a_timer.run {} counterStep 100 100 =
      some ⟨⟨false, true, false⟩, 0, 100, false⟩ := by
  have h := run_exact_invocations counterStep 100 {} 100 100 (by omega)
    (by decide) (by decide) (by omega)
  exact h.trans (by decide)

/-- Claim C4: on every exit path of run, whether the step function returned
false, the stop flag was observed false, or an invocation raised, _is_running
has been cleared by the time run returns or propagates the failure. -/
theorem run_clears_liveness {σ : Type} (f : σ → Option Bool × σ) (fuel : Nat)
    (t : not_a_timer) (s : σ) (out : RunOut σ)
    (h : not_a_timer.run t f fuel s = some out) :
    out.timer._is_running = false :=
  runLoop_clears f fuel { t with _keep_running := true, _is_running := true } s 0 out h

/-- Witness for claim C4: a step function whose very first invocation raises
still leaves _is_running cleared on the propagated exit. -/
theorem run_clears_liveness_witness :
    (⟨⟨false, true, false⟩, (), 1, true⟩ : RunOut Unit).timer._is_running = false :=
  run_clears_liveness throwStep 1 {} () ⟨⟨false, true, false⟩, (), 1, true⟩ (by decide)

/-- Claim C6: run sets _keep_running to true at entry, so a stale false value
left by a prior stop is overridden: running after a stop yields exactly the
same outcome as running without it, and the loop still executes (at least one
invocation happens) rather than exiting immediately on the stale flag. -/
theorem run_overrides_stale_stop {σ : Type} (f : σ → Option Bool × σ)
    (fuel : Nat) (t : not_a_timer) (s : σ) (out : RunOut σ)
    (h : not_a_timer.run (not_a_timer.stop t) f fuel s = some out) :
    not_a_timer.run t f fuel s = some out ∧ 1 ≤ out.calls := by
  have hsame : not_a_timer.run (not_a_timer.stop t) f fuel s =
      not_a_timer.run t f fuel s := rfl
  rw [hsame] at h
  exact ⟨h, runLoop_calls_lower f fuel
    { t with _keep_running := true, _is_running := true } s 0 out rfl h⟩

/-- Witness for claim C6: stop followed by run on a counter starting at 1
behaves exactly as run alone and performs one invocation. -/
theorem run_overrides_stale_stop_witness :
    not_a_timer.run {} counterStep 2 1 =
      some ⟨⟨false, true, false⟩, 0, 1, false⟩ ∧
    1 ≤ (⟨⟨false, true, false⟩, 0, 1, false⟩ : RunOut Nat).calls :=
  run_overrides_stale_stop counterStep 2 {} 1 ⟨⟨false, true, false⟩, 0, 1, false⟩
    (by decide)

/-- Claim C10: every terminating call to run invokes the step function at
least once, from any object state (including one where stop was called
beforehand), because run sets _keep_running to true before the first check of
the loop condition. -/
theorem run_invokes_at_least_once {σ : Type} (f : σ → Option Bool × σ)
    (fuel : Nat) (t : not_a_timer) (s : σ) (out : RunOut σ)
    (h : not_a_timer.run t f fuel s = some out) : 1 ≤ out.calls :=
  runLoop_calls_lower f fuel { t with _keep_running := true, _is_running := true }
    s 0 out rfl h

/-- Witness for claim C10: run on a counter starting at 1 performs one
invocation. -/
theorem run_invokes_at_least_once_witness :
    1 ≤ (⟨⟨false, true, false⟩, 0, 1, false⟩ : RunOut Nat).calls :=
  run_invokes_at_least_once counterStep 1 {} 1 ⟨⟨false, true, false⟩, 0, 1, false⟩
    (by decide)

/-- A property preserved by every machine step holds at the end of any
execution on which it held at the start. -/
lemma rtg_invariant {σ : Type} {f : σ → Bool × σ} (P : SysConfig σ → Prop)
    (hP : ∀ a b, SysStep f a b → P a → P b) (c c2 : SysConfig σ)
    (h : Relation.ReflTransGen (SysStep f) c c2) (hc : P c) : P c2 := by
  induction h with
  | refl => exact hc
  | tail h1 h2 ih => exact hP _ _ h2 ih

/-- Each machine step preserves the handshake invariant: once run_async has
returned the notification has fired, and the notification fires only after
the async task has begun executing. -/
lemma sysStep_preserves_handshake {σ : Type} (f : σ → Bool × σ)
    (a b : SysConfig σ) (h : SysStep f a b)
    (ha : (mainPast a.main = true → a.notified = true) ∧
      (a.notified = true → handshakeDone a.worker = true)) :
    (mainPast b.main = true → b.notified = true) ∧
    (b.notified = true → handshakeDone b.worker = true) := by
  obtain ⟨h1, h2⟩ := ha
  cases h <;> simp_all [mainPast, handshakeDone, stopC, not_a_timer.stop]

/-- Each machine step preserves the liveness invariant: _is_running is true
exactly while the worker is between the loop-entry write and the janitor
write. -/
lemma sysStep_preserves_liveness {σ : Type} (f : σ → Bool × σ)
    (a b : SysConfig σ) (h : SysStep f a b)
    (ha : a.timer._is_running = runningRegion a.worker) :
    b.timer._is_running = runningRegion b.worker := by
  cases h <;> simp_all [runningRegion, stopC, not_a_timer.stop]

/-- Each machine step preserves the join invariant for the counter step
function: the future handle exists once launched, _keep_running stays true
while stop was never called, destruction implies the worker has finished, and
a worker that exited the loop without a stop left the counter at 0. -/
lemma sysStep_preserves_join (a b : SysConfig Nat)
    (h : SysStep counterStepT a b)
    (ha : (a.main = MainPc.start ∨ a.timer._running_fn = true) ∧
      (a.stop_called = false → a.timer._keep_running = true) ∧
      (a.main = MainPc.destroyed → a.worker = WorkerPc.done) ∧
      ((a.worker = WorkerPc.janitor ∨ a.worker = WorkerPc.done) →
        a.stop_called = false → a.st = 0)) :
    (b.main = MainPc.start ∨ b.timer._running_fn = true) ∧
    (b.stop_called = false → b.timer._keep_running = true) ∧
    (b.main = MainPc.destroyed → b.worker = WorkerPc.done) ∧
    ((b.worker = WorkerPc.janitor ∨ b.worker = WorkerPc.done) →
      b.stop_called = false → b.st = 0) := by
  obtain ⟨h1, h2, h3, h4⟩ := ha
  cases h <;> simp_all [stopC, not_a_timer.stop, counterStepT, size_t_mod]
  omega

/-- Each machine step preserves the stop bound: once _keep_running is false
and the worker is past the _keep_running write of run, at most the pending
invocation (if the worker already passed the loop-head check) can still be
charged to the invocation counter. -/
lemma sysStep_preserves_stopBound {σ : Type} (f : σ → Bool × σ) (B : Nat)
    (a b : SysConfig σ) (h : SysStep f a b)
    (ha : a.timer._keep_running = false ∧ postKeepRegion a.worker = true ∧
      a.fnCalls + stopBudget a ≤ B) :
    b.timer._keep_running = false ∧ postKeepRegion b.worker = true ∧
    b.fnCalls + stopBudget b ≤ B := by
  obtain ⟨h1, h2, h3⟩ := ha
  cases h <;> simp_all [postKeepRegion, stopBudget, stopC, not_a_timer.stop]

/-- A single machine step never decreases the invocation counter. -/
lemma sysStep_fnCalls_mono {σ : Type} (f : σ → Bool × σ) (a b : SysConfig σ)
    (h : SysStep f a b) : a.fnCalls ≤ b.fnCalls := by
  cases h <;> simp [stopC]

/-- The invocation counter never decreases along any machine execution. -/
lemma rtg_fnCalls_mono {σ : Type} (f : σ → Bool × σ) (c c2 : SysConfig σ)
    (h : Relation.ReflTransGen (SysStep f) c c2) : c.fnCalls ≤ c2.fnCalls := by
  induction h with
  | refl => exact Nat.le_refl _
  | tail h1 h2 ih => exact Nat.le_trans ih (sysStep_fnCalls_mono _ _ _ h2)

/-- The state right after run_async returns, when the caller is scheduled
immediately after the handshake notification, is reachable. -/
lemma cexCfg_reachable :
    Relation.ReflTransGen (SysStep counterStepT) (sysInit 100) cexCfg := by
  have s1 : SysStep counterStepT (sysInit 100)
      ⟨⟨true, true, false⟩, MainPc.waitCV, WorkerPc.notify, false, false, 0, 100⟩ :=
    SysStep.launch (sysInit 100) rfl rfl
  have s2 : SysStep counterStepT
      ⟨⟨true, true, false⟩, MainPc.waitCV, WorkerPc.notify, false, false, 0, 100⟩
      ⟨⟨true, true, false⟩, MainPc.waitCV, WorkerPc.setKeep, true, false, 0, 100⟩ :=
    SysStep.notifyStarted _ rfl
  have s3 : SysStep counterStepT
      ⟨⟨true, true, false⟩, MainPc.waitCV, WorkerPc.setKeep, true, false, 0, 100⟩
      cexCfg :=
    SysStep.wake _ rfl rfl
  exact Relation.ReflTransGen.tail
    (Relation.ReflTransGen.tail (Relation.ReflTransGen.single s1) s2) s3

/-- Counterexample to claim C1 as stated: the async task notifies the start
handshake before it calls run, so there is a reachable machine state in which
run_async has already returned to the caller while the background loop has
not yet set _is_running; a call to is_running() made at that point yields
false. -/
theorem run_async_liveness_cex :
    Relation.ReflTransGen (SysStep counterStepT) (sysInit 100) cexCfg ∧
    cexCfg.main = MainPc.afterAsync ∧
    not_a_timer.is_running cexCfg.timer = false :=
  ⟨cexCfg_reachable, rfl, rfl⟩

/-- Claim C1, amended: by the time run_async returns, the start notification
has fired and the background task has begun executing (it is past the
handshake), but is_running() may still read false until the loop body sets
the flag. -/
theorem run_async_handshake {σ : Type} (f : σ → Bool × σ) (s : σ)
    (c : SysConfig σ)
    (h : Relation.ReflTransGen (SysStep f) (sysInit s) c)
    (hm : c.main = MainPc.afterAsync) :
    c.notified = true ∧ handshakeDone c.worker = true := by
  have hinv := rtg_invariant
    (fun x => (mainPast x.main = true → x.notified = true) ∧
      (x.notified = true → handshakeDone x.worker = true))
    (sysStep_preserves_handshake f) (sysInit s) c h
    ⟨by simp [sysInit, mainPast], by simp [sysInit]⟩
  have hn := hinv.1 (by rw [hm]; rfl)
  exact ⟨hn, hinv.2 hn⟩

/-- Witness for the amended claim C1, at the same reachable state as the
counterexample. -/
theorem run_async_handshake_witness :
    cexCfg.notified = true ∧ handshakeDone cexCfg.worker = true :=
  run_async_handshake counterStepT 100 cexCfg cexCfg_reachable rfl

/-- A complete execution on the counter step function started at 1: launch,
handshake, loop entry, one invocation returning false, janitor, destruction
after the destructor waited on the future. -/
lemma joinEnd_reachable :
    Relation.ReflTransGen (SysStep counterStepT) (sysInit 1) joinEnd := by
  have s1 : SysStep counterStepT (sysInit 1)
      ⟨⟨true, true, false⟩, MainPc.waitCV, WorkerPc.notify, false, false, 0, 1⟩ :=
    SysStep.launch (sysInit 1) rfl rfl
  have s2 : SysStep counterStepT
      ⟨⟨true, true, false⟩, MainPc.waitCV, WorkerPc.notify, false, false, 0, 1⟩
      ⟨⟨true, true, false⟩, MainPc.waitCV, WorkerPc.setKeep, true, false, 0, 1⟩ :=
    SysStep.notifyStarted _ rfl
  have s3 : SysStep counterStepT
      ⟨⟨true, true, false⟩, MainPc.waitCV, WorkerPc.setKeep, true, false, 0, 1⟩
      ⟨⟨true, true, false⟩, MainPc.afterAsync, WorkerPc.setKeep, true, false, 0, 1⟩ :=
    SysStep.wake _ rfl rfl
  have s4 : SysStep counterStepT
      ⟨⟨true, true, false⟩, MainPc.afterAsync, WorkerPc.setKeep, true, false, 0, 1⟩
      ⟨⟨true, true, false⟩, MainPc.afterAsync, WorkerPc.setRun, true, false, 0, 1⟩ :=
    SysStep.setKeepRunning _ rfl
  have s5 : SysStep counterStepT
      ⟨⟨true, true, false⟩, MainPc.afterAsync, WorkerPc.setRun, true, false, 0, 1⟩
      ⟨⟨true, true, true⟩, MainPc.afterAsync, WorkerPc.loopHead, true, false, 0, 1⟩ :=
    SysStep.setIsRunning _ rfl
  have s6 : SysStep counterStepT
      ⟨⟨true, true, true⟩, MainPc.afterAsync, WorkerPc.loopHead, true, false, 0, 1⟩
      ⟨⟨true, true, true⟩, MainPc.afterAsync, WorkerPc.callFn, true, false, 0, 1⟩ :=
    SysStep.loopCheckTrue _ rfl rfl
  have s7 : SysStep counterStepT
      ⟨⟨true, true, true⟩, MainPc.afterAsync, WorkerPc.callFn, true, false, 0, 1⟩
      ⟨⟨true, true, true⟩, MainPc.afterAsync, WorkerPc.janitor, true, false, 1, 0⟩ :=
    SysStep.callFalse _ 0 rfl (by decide)
  have s8 : SysStep counterStepT
      ⟨⟨true, true, true⟩, MainPc.afterAsync, WorkerPc.janitor, true, false, 1, 0⟩
      ⟨⟨true, true, false⟩, MainPc.afterAsync, WorkerPc.done, true, false, 1, 0⟩ :=
    SysStep.janitorClear _ rfl
  have s9 : SysStep counterStepT
      ⟨⟨true, true, false⟩, MainPc.afterAsync, WorkerPc.done, true, false, 1, 0⟩
      ⟨⟨true, true, false⟩, MainPc.dtorWait, WorkerPc.done, true, false, 1, 0⟩ :=
    SysStep.dtorEnter _ rfl
  have s10 : SysStep counterStepT
      ⟨⟨true, true, false⟩, MainPc.dtorWait, WorkerPc.done, true, false, 1, 0⟩
      joinEnd :=
    SysStep.dtorDone _ rfl (Or.inr rfl)
  exact Relation.ReflTransGen.tail (Relation.ReflTransGen.tail
    (Relation.ReflTransGen.tail (Relation.ReflTransGen.tail
      (Relation.ReflTransGen.tail (Relation.ReflTransGen.tail
        (Relation.ReflTransGen.tail (Relation.ReflTransGen.tail
          (Relation.ReflTransGen.tail (Relation.ReflTransGen.single s1)
            s2) s3) s4) s5) s6) s7) s8) s9) s10

/-- Claim C3: destruction never completes while the detached loop is still
executing, and if stop was never called a naturally terminating counter loop
has driven its counter to 0 by the time the destructor returns. -/
theorem destructor_joins_loop (c0 : Nat) (c : SysConfig Nat)
    (h : Relation.ReflTransGen (SysStep counterStepT) (sysInit c0) c)
    (hm : c.main = MainPc.destroyed) :
    c.worker = WorkerPc.done ∧ (c.stop_called = false → c.st = 0) := by
  have hinv := rtg_invariant
    (fun x => (x.main = MainPc.start ∨ x.timer._running_fn = true) ∧
      (x.stop_called = false → x.timer._keep_running = true) ∧
      (x.main = MainPc.destroyed → x.worker = WorkerPc.done) ∧
      ((x.worker = WorkerPc.janitor ∨ x.worker = WorkerPc.done) →
        x.stop_called = false → x.st = 0))
    sysStep_preserves_join (sysInit c0) c h
    ⟨Or.inl rfl, fun _ => rfl, by simp [sysInit], by simp [sysInit]⟩
  exact ⟨hinv.2.2.1 hm, fun hs => hinv.2.2.2 (Or.inr (hinv.2.2.1 hm)) hs⟩

/-- Witness for claim C3: the displayed complete execution ends destroyed,
with the worker finished and the counter at 0. -/
theorem destructor_joins_loop_witness :
    joinEnd.worker = WorkerPc.done ∧ (joinEnd.stop_called = false → joinEnd.st = 0) :=
  destructor_joins_loop 1 joinEnd joinEnd_reachable rfl

/-- Claim C5: the stop flag is checked before each invocation.  From any
machine state in which _keep_running is already false: if the worker is at
the loop-head check, the step function is never invoked again; if the worker
has passed the check and is about to invoke, at most that one in-flight
invocation completes. -/
theorem stop_checked_at_boundary {σ : Type} (f : σ → Bool × σ)
    (c c2 : SysConfig σ)
    (h : Relation.ReflTransGen (SysStep f) c c2)
    (hkeep : c.timer._keep_running = false) :
    (c.worker = WorkerPc.loopHead → c2.fnCalls = c.fnCalls) ∧
    (c.worker = WorkerPc.callFn → c2.fnCalls ≤ c.fnCalls + 1) := by
  constructor
  · intro hw
    have hinv := rtg_invariant
      (fun x => x.timer._keep_running = false ∧ postKeepRegion x.worker = true ∧
        x.fnCalls + stopBudget x ≤ c.fnCalls + stopBudget c)
      (sysStep_preserves_stopBound f (c.fnCalls + stopBudget c)) c c2 h
      ⟨hkeep, by simp [postKeepRegion, hw], Nat.le_refl _⟩
    have hmono := rtg_fnCalls_mono f c c2 h
    have hb : stopBudget c = 0 := by simp [stopBudget, hw]
    have hball := hinv.2.2
    omega
  · intro hw
    have hinv := rtg_invariant
      (fun x => x.timer._keep_running = false ∧ postKeepRegion x.worker = true ∧
        x.fnCalls + stopBudget x ≤ c.fnCalls + stopBudget c)
      (sysStep_preserves_stopBound f (c.fnCalls + stopBudget c)) c c2 h
      ⟨hkeep, by simp [postKeepRegion, hw], Nat.le_refl _⟩
    have hb : stopBudget c = 1 := by simp [stopBudget, hw]
    have hball := hinv.2.2
    omega

/-- The two worker steps from a stopped loop head: the check observes the
stop and the janitor runs, with no further invocation. -/
lemma stopObs_chain :
    Relation.ReflTransGen (SysStep counterStepT) stopObsStart stopObsEnd := by
  have s1 : SysStep counterStepT stopObsStart
      ⟨⟨true, false, true⟩, MainPc.afterAsync, WorkerPc.janitor, true, true, 7, 5⟩ :=
    SysStep.loopCheckFalse stopObsStart rfl rfl
  have s2 : SysStep counterStepT
      ⟨⟨true, false, true⟩, MainPc.afterAsync, WorkerPc.janitor, true, true, 7, 5⟩
      stopObsEnd :=
    SysStep.janitorClear _ rfl
  exact Relation.ReflTransGen.tail (Relation.ReflTransGen.single s1) s2

/-- Witness for claim C5: from a stopped state at the loop head, the
invocation count is unchanged when the loop has exited. -/
theorem stop_checked_at_boundary_witness :
    stopObsEnd.fnCalls = stopObsStart.fnCalls :=
  (stop_checked_at_boundary counterStepT stopObsStart stopObsEnd stopObs_chain
    rfl).1 rfl

/-- Claim C7: in every reachable machine state, is_running() returns true
exactly while the worker is inside the loop interval, from the loop-entry
write of _is_running up to the janitor write that clears it; in particular it
is false on a freshly constructed object and false again once the loop has
finished. -/
theorem is_running_matches_loop_interval {σ : Type} (f : σ → Bool × σ)
    (s : σ) (c : SysConfig σ)
    (h : Relation.ReflTransGen (SysStep f) (sysInit s) c) :
    not_a_timer.is_running c.timer = runningRegion c.worker :=
  rtg_invariant (fun x => x.timer._is_running = runningRegion x.worker)
    (sysStep_preserves_liveness f) (sysInit s) c h rfl

/-- Witness for claim C7, at the freshly constructed state: is_running()
reads false before any run. -/
theorem is_running_matches_loop_interval_witness :
    not_a_timer.is_running (sysInit (5 : Nat)).timer =
      runningRegion (sysInit (5 : Nat)).worker :=
  is_running_matches_loop_interval counterStepT 5 (sysInit 5)
    Relation.ReflTransGen.refl

/-- Claim C8: stop is idempotent: any number of successive calls equals one
call, it never fails (it is a total function of the state), it leaves the
observable liveness flag unchanged, and repeating it on a machine
configuration is the same as performing it once. -/
theorem stop_idempotent (t : not_a_timer) (n : Nat) (c : SysConfig Nat) :
    stopN (n + 1) t = not_a_timer.stop t ∧
    not_a_timer.stop (not_a_timer.stop t) = not_a_timer.stop t ∧
    not_a_timer.is_running (not_a_timer.stop t) = not_a_timer.is_running t ∧
    stopC (stopC c) = stopC c := by
  refine ⟨?_, rfl, rfl, rfl⟩
  induction n with
  | zero => rfl
  | succ n ih =>
    show not_a_timer.stop (stopN (n + 1) t) = not_a_timer.stop t
    rw [ih]
    exact rfl

/-- Claim C9: stop mutates only _keep_running: _is_running and the
background-task handle are unchanged, and on a machine configuration stop
leaves both program counters, the notification flag, the invocation count and
the captured state untouched; is_running is a pure observer, defined as the
projection of _is_running. -/
theorem stop_frame (t : not_a_timer) (c : SysConfig Nat) :
    (not_a_timer.stop t)._keep_running = false ∧
    (not_a_timer.stop t)._is_running = t._is_running ∧
    (not_a_timer.stop t)._running_fn = t._running_fn ∧
    not_a_timer.is_running t = t._is_running ∧
    (stopC c).main = c.main ∧
    (stopC c).worker = c.worker ∧
    (stopC c).notified = c.notified ∧
    (stopC c).fnCalls = c.fnCalls ∧
    (stopC c).st = c.st ∧
    (stopC c).timer._is_running = c.timer._is_running ∧
    (stopC c).timer._running_fn = c.timer._running_fn :=
  ⟨rfl, rfl, rfl, rfl, rfl, rfl, rfl, rfl, rfl, rfl, rfl⟩
